import Mathlib

/-!
Verification of the incremental live-transcript assembly pipeline of the
`aaron` repository.

The text-processing kernel and state transitions below are shallow embeddings
of the TypeScript source:

* `src/app/live-agent/page.tsx` — streaming mode: `handleCommentary`,
  `flushLiveTranscript`, the `addNewTopic` function-call handler inside
  `handleModelResponse`, and `stopCapture`;
* `src/app/agent/page.tsx` — request/response (batch) mode:
  `handleDataAvailable` and the timer-driven recorder cycle of `startCapture`;
* `src/lib/AudioStream/AudioRecorder.ts` — the `AudioRecorder` class.

JS strings are modelled as lists of characters (`Str`), JS arrays as Lean
lists, and the React state triple (`topics`, `commentary`, `liveTranscript`)
as the structure `AState`.  The asynchronous batch-mode controller is
modelled as an explicit event-step transition system (`ctrlStep`).
-/

namespace Aaron

/-- A JS string, modelled as its list of characters. -/
abbrev Str := List Char

/-- Conversion from a Lean string literal to the model type. -/
def str (s : String) : Str := s.data

/-- Whitespace as matched by the JS `\s` class and `String.prototype.trim`,
restricted to the ASCII range (all inputs in the claims are ASCII). -/
def isWs (c : Char) : Bool :=
  c = ' ' || c = '\t' || c = '\n' || c = '\r' || c = '\x0B' || c = '\x0C'

/-- All non-whitespace characters of a string, in order.  Two strings are
equal "modulo whitespace normalization" exactly when their `strip`s agree. -/
def strip (s : Str) : Str := s.filter (fun c => !isWs c)

/-- JS `String.prototype.trim`: remove leading and trailing whitespace. -/
def trim (s : Str) : Str := ((s.dropWhile isWs).reverse.dropWhile isWs).reverse

/-- JS `String.prototype.toLowerCase` (ASCII). -/
def lower (s : Str) : Str := s.map Char.toLower

/-- A sentence-terminal character, the class `[.!?]` of the split regex. -/
def isTerminal (c : Char) : Bool := c = '.' || c = '!' || c = '?'

/-- Cut a string after every terminal character, keeping every character:
the accumulator holds the current segment reversed.  This realises the cut
positions of the regex `(?<=[.!?])\s*` before whitespace removal. -/
def splitRaw : Str → Str → List Str
  | [], acc => [acc.reverse]
  | c :: rest, acc =>
    if isTerminal c then (acc.reverse ++ [c]) :: splitRaw rest []
    else splitRaw rest (c :: acc)

/-- The sentence split `s.split(/(?<=[.!?])\s*/)` from the source: the string
is cut after every terminal character, and the whitespace immediately
following a terminal (the `\s*` of the regex) is consumed, i.e. dropped from
the front of every segment after the first. -/
def splitSentences (s : Str) : List Str :=
  match splitRaw s [] with
  | [] => []
  | h :: t => h :: t.map (List.dropWhile isWs)

/-- The filter `.filter(s => s.trim().length > 0)` applied after the split
in both `handleCommentary` and `flushLiveTranscript`. -/
def keepNonBlank (x : Str) : Bool := !(trim x).isEmpty

/-- The composite `s.split(/(?<=[.!?])\s*/).filter(s => s.trim().length > 0)`. -/
def sentencesOf (u : Str) : List Str := (splitSentences u).filter keepNonBlank

/-- A topic, `interface Topic { id; title; commentaries }`. -/
structure Topic where
  id : Str
  title : Str
  commentaries : List Str
deriving DecidableEq

/-- The streaming-mode session state of `live-agent/page.tsx`: the `topics`
list, the flat `commentary` list, and the `liveTranscript` buffer. -/
structure AState where
  topics : List Topic
  commentary : List Str
  buffer : Str
deriving DecidableEq

/-- The initial session state: no topics, no commentary, empty buffer. -/
def initState : AState := { topics := [], commentary := [], buffer := [] }

/-- The right-hand side of the streaming silence test,
`newCommentary.toLowerCase().trim() === "silence."`. -/
def silenceMarker : Str := str "silence."

/-- The exact literal compared against in batch mode,
`result.commentary !== "Silence."`. -/
def silenceLiteral : Str := str "Silence."

/-- The streaming-mode ignore test
`!newCommentary || newCommentary.toLowerCase().trim() === "silence."`. -/
def streamIgnored (frag : Str) : Bool :=
  frag.isEmpty || trim (lower frag) == silenceMarker

/-- The update `newTopics[newTopics.length - 1].commentaries.push(...sentences)`:
append the given sentences to the commentaries of the last topic. -/
def appendToLast : List Topic → List Str → List Topic
  | [], _ => []
  | [t], ss => [{ t with commentaries := t.commentaries ++ ss }]
  | t :: t2 :: ts, ss => t :: appendToLast (t2 :: ts) ss

/-- The lazily created default bucket
`add a bucket with id "initial-topic" and title "General Discussion"`. -/
def initialTopic (ss : List Str) : Topic :=
  { id := str "initial-topic", title := str "General Discussion", commentaries := ss }

/-- Function `handleCommentary` from `live-agent/page.tsx` (lines 83-112): ignore empty
or silence fragments; otherwise append the fragment to the live transcript,
trim, split into sentences, and if more than one non-blank segment results,
move all but the last into the open topic (creating the default topic when
none exists) and keep the last as the new live transcript. -/
def handleCommentary (s : AState) (frag : Str) : AState :=
  if streamIgnored frag then s
  else
    let updated := trim (s.buffer ++ frag)
    let sentences := sentencesOf updated
    if 1 < sentences.length then
      let complete := sentences.dropLast
      let remaining := (sentences.getLast?).getD []
      { topics :=
          if 0 < s.topics.length then appendToLast s.topics complete
          else if 0 < complete.length then [initialTopic complete]
          else s.topics
        commentary := s.commentary ++ complete
        buffer := remaining }
    else { s with buffer := updated }

/-- Function `flushLiveTranscript` from `live-agent/page.tsx` (lines 56-76): trim the
buffer; if non-empty, split it into sentences and append them all (the
trailing, possibly unterminated one included) to the open topic, creating the
default topic when none exists; in every case reset the buffer to the empty string. -/
def flushLiveTranscript (s : AState) : AState :=
  let t := trim s.buffer
  if !t.isEmpty then
    let sentences := sentencesOf t
    if 0 < sentences.length then
      { topics :=
          if 0 < s.topics.length then appendToLast s.topics sentences
          else [initialTopic sentences]
        commentary := s.commentary ++ sentences
        buffer := [] }
    else { s with buffer := [] }
  else { s with buffer := [] }

/-- The `addNewTopic` function-call handler inside `handleModelResponse`
(lines 120-135): flush the live transcript, then append a fresh topic unless
one with the identical title already exists. -/
def handleNewTopic (s : AState) (newId topic : Str) : AState :=
  let s1 := flushLiveTranscript s
  if s1.topics.any (fun t => t.title == topic) then s1
  else { s1 with topics := s1.topics ++ [{ id := newId, title := topic, commentaries := [] }] }

/-- One part of a streaming server message: a text part or a function call. -/
inductive MsgPart where
  | text (t : Str)
  | funcCall (nm topic : Str)
deriving DecidableEq

/-- Processing of one message part by `handleModelResponse`: a truthy text
part goes to `handleCommentary`; a function call named `addNewTopic` with a
truthy `topic` argument goes to the new-topic handler. -/
def handlePart (newId : Str) (s : AState) : MsgPart → AState
  | .text t => if t.isEmpty then s else handleCommentary s t
  | .funcCall nm topic =>
    if nm == str "addNewTopic" && !topic.isEmpty then handleNewTopic s newId topic
    else s

/-- Function `handleModelResponse` (lines 78-138): fold over the message parts in
order.  (In the source each created topic gets a fresh `Date.now()` id; the
id value never influences control flow, so a single `newId` is threaded.) -/
def handleModelResponse (newId : Str) (s : AState) (parts : List MsgPart) : AState :=
  parts.foldl (handlePart newId) s

/-- Feed a sequence of fragments to the streaming assembler, starting from
the fresh session state. -/
def runFrags (frags : List Str) : AState :=
  frags.foldl handleCommentary initState

/-- The request/response-mode session state of `agent/page.tsx`: the flat
`commentary` list and the `topics` list (this mode keeps no live buffer). -/
structure BState where
  commentary : List Str
  topics : List Topic
deriving DecidableEq

/-- The result-application part of `handleDataAvailable` in `agent/page.tsx`
(lines 196-214): on a success status, a truthy commentary different
from the exact literal `"Silence."` is appended to the commentary list and to
the commentaries of the last topic (only when a topic exists — no default topic is
created in this mode); then a truthy `newTopic` unconditionally appends a
fresh topic.  On error status the state is unchanged (the error is logged). -/
def applyBatchResult (b : BState) (success : Bool) (c nt newId : Str) : BState :=
  if success then
    let b1 :=
      if !c.isEmpty && c != silenceLiteral then
        { commentary := b.commentary ++ [c]
          topics := if 0 < b.topics.length then appendToLast b.topics [c] else b.topics }
      else b
    if !nt.isEmpty then
      { b1 with topics := b1.topics ++ [{ id := newId, title := nt, commentaries := [] }] }
    else b1
  else b

/-- Modelled from the source, not from the spec: in `live-agent/page.tsx` the
live-session callback is registered as `onmessage: handleModelResponse` and
`handleModelResponse` never reads `isCapturingRef`, so a server message that
arrives after `stopCapture` ran (capturing flag `false`) is processed exactly
as one arriving during capture.  The `capturing` parameter records the value
of the flag at arrival time; the right-hand side does not depend on it
because the source contains no such check. -/
def applyServerMessage (capturing : Bool) (newId : Str) (s : AState)
    (parts : List MsgPart) : AState :=
  handleModelResponse newId s parts

/-- Same for request/response mode: the continuation of `handleDataAvailable`
after `await fetch(...)` applies the parsed result without consulting any
capturing flag, so a reply arriving after stop is applied all the same. -/
def applyFetchResult (capturing : Bool) (b : BState) (success : Bool)
    (c nt newId : Str) : BState :=
  applyBatchResult b success c nt newId

/-- The fields of the `AudioRecorder` class relevant to resource ownership.
Media streams are identified by numeric handles; worklets and the source node
are tracked as connected/disconnected booleans. -/
structure AudioRecorder where
  stream : Option Nat
  streamCreatedInternally : Bool
  recording : Bool
  sourceConnected : Bool
  recordingWorklet : Bool
  vuWorklet : Bool
deriving DecidableEq

/-- A recorder as freshly constructed: nothing acquired, not recording. -/
def AudioRecorder.mkNew : AudioRecorder :=
  { stream := none, streamCreatedInternally := false, recording := false
    sourceConnected := false, recordingWorklet := false, vuWorklet := false }

/-- Method `AudioRecorder.start(stream?)`: a no-op when already recording; otherwise
adopt the externally supplied stream (setting `streamCreatedInternally` to
`false`) or acquire one via `getUserMedia` (identified by `internalId`,
setting the flag to `true`), then connect source and worklets and set
`recording`. -/
def AudioRecorder.start (r : AudioRecorder) (external : Option Nat)
    (internalId : Nat) : AudioRecorder :=
  if r.recording then r
  else
    { stream := some (external.getD internalId)
      streamCreatedInternally := external.isNone
      recording := true
      sourceConnected := true
      recordingWorklet := true
      vuWorklet := true }

/-- Method `AudioRecorder.stop` (lines 95-119): disconnect source and worklets,
clear all fields, and stop the media tracks of the stream only when it
was created internally.  The returned list collects the stream handles whose
tracks this call stops. -/
def AudioRecorder.stop (r : AudioRecorder) : AudioRecorder × List Nat :=
  ({ stream := none
     streamCreatedInternally := r.streamCreatedInternally
     recording := false
     sourceConnected := false
     recordingWorklet := false
     vuWorklet := false },
   match r.stream, r.streamCreatedInternally with
   | some id, true => [id]
   | _, _ => [])

/-- The track-release step of `stopCapture` in `live-agent/page.tsx`
(lines 154-160): the controller itself stops every track of the captured
stream it owns.  Returns the handles of the streams whose tracks it stops. -/
def stopCaptureTrackReleases (capturedStream : Option Nat) : List Nat :=
  match capturedStream with
  | some id => [id]
  | none => []

/-- The observable control state of the batch-mode capture cycle in
`agent/page.tsx`: whether the `MediaRecorder` is in its recording state,
how many transcription calls are in flight, how many `dataavailable` events
are pending delivery, and whether the segmentation interval is installed. -/
structure CtrlState where
  recRecording : Bool
  inflight : Nat
  pending : Nat
  intervalActive : Bool
deriving DecidableEq

/-- The asynchronous events of the batch-mode cycle. -/
inductive CtrlEvent where
  | timerFire
  | dataAvailable (size : Nat)
  | fetchComplete
  | stopEvent
deriving DecidableEq

/-- One event step of the batch-mode controller, from `agent/page.tsx`:

* `timerFire` (lines 261-265): the interval callback stops the recorder only
  when its state is recording — the stop queues one `dataavailable`
  event; otherwise the cycle is skipped, changing nothing;
* `dataAvailable size` (lines 177-218): deliverable only when an event is
  pending; a chunk with `size > 0` starts one `fetch` call (now in flight);
  an empty chunk skips the call and the tail of the handler immediately
  restarts the recorder when the interval is still installed (lines 220-222);
* `fetchComplete` (lines 185-222): the continuation after `await fetch`
  applies the result and then restarts the recorder when the interval is
  still installed;
* `stopEvent` (lines 146-175): `stopCapture` clears the interval and stops a
  recorder that is still recording, which queues one final `dataavailable`.

`none` marks events that cannot occur in the given state. -/
def ctrlStep (s : CtrlState) : CtrlEvent → Option CtrlState
  | .timerFire =>
    some (if s.recRecording then
            { s with recRecording := false, pending := s.pending + 1 }
          else s)
  | .dataAvailable size =>
    if s.pending = 0 then none
    else if 0 < size then
      some { s with pending := s.pending - 1, inflight := s.inflight + 1 }
    else
      some { s with pending := s.pending - 1
                    recRecording := s.recRecording || s.intervalActive }
  | .fetchComplete =>
    if s.inflight = 0 then none
    else
      some { s with inflight := s.inflight - 1
                    recRecording := s.recRecording || s.intervalActive }
  | .stopEvent =>
    some { recRecording := false
           inflight := s.inflight
           pending := s.pending + (if s.recRecording then 1 else 0)
           intervalActive := false }

/-- The state right after `startCapture` finished: recorder started,
interval installed, nothing pending or in flight (lines 253-265). -/
def ctrlInit : CtrlState :=
  { recRecording := true, inflight := 0, pending := 0, intervalActive := true }

/-- The states reachable from `ctrlInit` by any sequence of events. -/
inductive CtrlReach : CtrlState → Prop where
  | init : CtrlReach ctrlInit
  | step {s s' : CtrlState} {e : CtrlEvent} :
      CtrlReach s → ctrlStep s e = some s' → CtrlReach s'

/-- The number of capture "tokens" alive in a control state: calls in
flight, chunks pending delivery, and an active recording counts one each. -/
def ctrlLoad (s : CtrlState) : Nat :=
  s.inflight + s.pending + (if s.recRecording then 1 else 0)

/-- All text held inside topics: the concatenation, in order, of every
commentary of every topic. -/
def topicsText (ts : List Topic) : Str :=
  (ts.map (fun t => t.commentaries.flatten)).flatten

/-- All text held by the streaming assembler: topic content followed by the
pending live-transcript buffer. -/
def assemblerText (s : AState) : Str :=
  topicsText s.topics ++ s.buffer

/-- The concatenation of the non-ignored (non-empty, non-silence) fragments
of a sequence, in arrival order. -/
def acceptedText (frags : List Str) : Str :=
  (frags.filter (fun f => !streamIgnored f)).flatten

/-- The titles of a topic list, in order. -/
def titlesOf (ts : List Topic) : List Str :=
  ts.map (fun t => t.title)

/-! ### Lemmas about the text kernel -/

theorem strip_append (a b : Str) : strip (a ++ b) = strip a ++ strip b := by
  simp [strip]

theorem strip_reverse (a : Str) : strip a.reverse = (strip a).reverse := by
  simp [strip]

theorem strip_dropWhile (l : Str) : strip (l.dropWhile isWs) = strip l := by
  induction l with
  | nil => rfl
  | cons c rest ih =>
    by_cases h : isWs c = true
    · rw [List.dropWhile_cons_of_pos h, ih]
      simp [strip, h]
    · rw [List.dropWhile_cons_of_neg (by simp [h])]

theorem strip_trim (s : Str) : strip (trim s) = strip s := by
  unfold trim
  rw [strip_reverse, strip_dropWhile, strip_reverse, strip_dropWhile,
    List.reverse_reverse]

theorem trim_eq_nil_iff (x : Str) : trim x = [] ↔ strip x = [] := by
  constructor
  · intro h
    rw [← strip_trim, h]
    rfl
  · intro h
    have hall : ∀ c ∈ x, isWs c = true := by
      intro c hc
      have := List.filter_eq_nil_iff.mp h c hc
      simpa using this
    have hd : x.dropWhile isWs = [] := List.dropWhile_eq_nil_iff.mpr hall
    unfold trim
    rw [hd]
    rfl

theorem splitRaw_ne_nil (s acc : Str) : splitRaw s acc ≠ [] := by
  induction s generalizing acc with
  | nil => simp [splitRaw]
  | cons c rest ih =>
    rw [splitRaw]
    by_cases h : isTerminal c = true
    · simp [h]
    · simpa [h] using ih (c :: acc)

theorem isWs_eq_false_of_isTerminal {c : Char} (h : isTerminal c = true) :
    isWs c = false := by
  have h' : (c = '.' ∨ c = '!') ∨ c = '?' := by simpa [isTerminal] using h
  rcases h' with (h' | h') | h' <;> subst h' <;> decide

theorem strip_flatten_splitRaw (s acc : Str) :
    strip (splitRaw s acc).flatten = strip acc.reverse ++ strip s := by
  induction s generalizing acc with
  | nil => simp [splitRaw, strip]
  | cons c rest ih =>
    rw [splitRaw]
    by_cases h : isTerminal c = true
    · have hnw : isWs c = false := isWs_eq_false_of_isTerminal h
      rw [if_pos h, List.flatten_cons, strip_append, ih]
      simp [strip, hnw, List.append_assoc]
    · rw [if_neg h, ih, List.reverse_cons]
      by_cases hw : isWs c = true
      · simp [strip, hw, List.append_assoc]
      · simp [strip, hw, List.append_assoc]

theorem strip_flatten_map_dropWhile (l : List Str) :
    strip ((l.map (List.dropWhile isWs)).flatten) = strip l.flatten := by
  induction l with
  | nil => rfl
  | cons h t ih =>
    simp only [List.map_cons, List.flatten_cons]
    rw [strip_append, strip_append, strip_dropWhile, ih]

theorem strip_flatten_splitSentences (s : Str) :
    strip (splitSentences s).flatten = strip s := by
  unfold splitSentences
  cases hsr : splitRaw s [] with
  | nil => exact absurd hsr (splitRaw_ne_nil s [])
  | cons h t =>
    simp only [List.flatten_cons]
    rw [strip_append, strip_flatten_map_dropWhile]
    have := strip_flatten_splitRaw s []
    rw [hsr] at this
    simp only [List.flatten_cons] at this
    rw [strip_append] at this
    simpa using this

theorem strip_flatten_filter_keepNonBlank (l : List Str) :
    strip ((l.filter keepNonBlank).flatten) = strip l.flatten := by
  induction l with
  | nil => rfl
  | cons h t ih =>
    by_cases hk : keepNonBlank h = true
    · rw [List.filter_cons_of_pos hk]
      simp only [List.flatten_cons]
      rw [strip_append, strip_append, ih]
    · rw [List.filter_cons_of_neg (by simp [hk])]
      have hnil : strip h = [] := by
        have hT : trim h = [] := by
          have hE : (trim h).isEmpty = true := by
            revert hk
            unfold keepNonBlank
            cases (trim h).isEmpty <;> simp
          exact List.isEmpty_iff.mp hE
        exact (trim_eq_nil_iff h).mp hT
      simp only [List.flatten_cons]
      rw [strip_append, hnil, ih]
      rfl

theorem strip_flatten_sentencesOf (u : Str) :
    strip (sentencesOf u).flatten = strip u := by
  unfold sentencesOf
  rw [strip_flatten_filter_keepNonBlank, strip_flatten_splitSentences]

theorem flatten_dropLast_getLast (l : List Str) :
    l.dropLast.flatten ++ (l.getLast?).getD [] = l.flatten := by
  induction l with
  | nil => rfl
  | cons h t ih =>
    cases t with
    | nil => simp
    | cons h2 t2 =>
      simp only [List.dropLast_cons₂, List.flatten_cons, List.getLast?_cons_cons,
        List.append_assoc]
      rw [ih]
      simp [List.flatten_cons]

/-! ### Lemmas about topic lists -/

theorem topicsText_cons (t : Topic) (ts : List Topic) :
    topicsText (t :: ts) = t.commentaries.flatten ++ topicsText ts := by
  simp [topicsText]

theorem topicsText_initialTopic (ss : List Str) :
    topicsText [initialTopic ss] = ss.flatten := by
  simp [topicsText, initialTopic]

theorem topicsText_appendToLast (ts : List Topic) (ss : List Str) (h : ts ≠ []) :
    topicsText (appendToLast ts ss) = topicsText ts ++ ss.flatten := by
  induction ts with
  | nil => exact absurd rfl h
  | cons t rest ih =>
    cases rest with
    | nil => simp [appendToLast, topicsText, List.append_assoc]
    | cons t2 r2 =>
      have h1 : appendToLast (t :: t2 :: r2) ss = t :: appendToLast (t2 :: r2) ss := rfl
      rw [h1, topicsText_cons, topicsText_cons, ih (by simp), List.append_assoc]

theorem length_appendToLast (ts : List Topic) (ss : List Str) :
    (appendToLast ts ss).length = ts.length := by
  induction ts with
  | nil => rfl
  | cons t rest ih =>
    cases rest with
    | nil => rfl
    | cons t2 r2 =>
      have h1 : appendToLast (t :: t2 :: r2) ss = t :: appendToLast (t2 :: r2) ss := rfl
      rw [h1, List.length_cons, ih, List.length_cons]
      simp

theorem dropLast_appendToLast (ts : List Topic) (ss : List Str) :
    (appendToLast ts ss).dropLast = ts.dropLast := by
  induction ts with
  | nil => rfl
  | cons t rest ih =>
    cases rest with
    | nil => rfl
    | cons t2 r2 =>
      cases r2 with
      | nil => simp [appendToLast]
      | cons t3 r3 =>
        have h1 : appendToLast (t :: t2 :: t3 :: r3) ss
            = t :: appendToLast (t2 :: t3 :: r3) ss := rfl
        have h2 : appendToLast (t2 :: t3 :: r3) ss
            = t2 :: appendToLast (t3 :: r3) ss := rfl
        rw [h1, h2, List.dropLast_cons₂, ← h2, ih]
        simp

theorem getLast?_appendToLast (ts : List Topic) (ss : List Str) :
    (appendToLast ts ss).getLast?
      = ts.getLast?.map (fun t => { t with commentaries := t.commentaries ++ ss }) := by
  induction ts with
  | nil => rfl
  | cons t rest ih =>
    cases rest with
    | nil => rfl
    | cons t2 r2 =>
      have h1 : appendToLast (t :: t2 :: r2) ss = t :: appendToLast (t2 :: r2) ss := rfl
      rw [h1]
      cases r2 with
      | nil => simp [appendToLast]
      | cons t3 r3 =>
        have h2 : appendToLast (t2 :: t3 :: r3) ss
            = t2 :: appendToLast (t3 :: r3) ss := rfl
        rw [h2, List.getLast?_cons_cons, ← h2, ih, List.getLast?_cons_cons]
        simp [List.getLast?_cons_cons]

theorem titlesOf_appendToLast (ts : List Topic) (ss : List Str) :
    titlesOf (appendToLast ts ss) = titlesOf ts := by
  induction ts with
  | nil => rfl
  | cons t rest ih =>
    cases rest with
    | nil => rfl
    | cons t2 r2 =>
      have h1 : appendToLast (t :: t2 :: r2) ss = t :: appendToLast (t2 :: r2) ss := rfl
      rw [h1]
      simp only [titlesOf, List.map_cons]
      have ih' := ih
      simp only [titlesOf] at ih'
      rw [ih']
      simp

/-! ### Unfolding equations and conservation of text -/

theorem handleCommentary_eq_of_not_ignored (s : AState) (frag : Str)
    (hig : streamIgnored frag = false) :
    handleCommentary s frag =
      (if 1 < (sentencesOf (trim (s.buffer ++ frag))).length then
        { topics :=
            if 0 < s.topics.length then
              appendToLast s.topics (sentencesOf (trim (s.buffer ++ frag))).dropLast
            else if 0 < (sentencesOf (trim (s.buffer ++ frag))).dropLast.length then
              [initialTopic (sentencesOf (trim (s.buffer ++ frag))).dropLast]
            else s.topics
          commentary := s.commentary ++ (sentencesOf (trim (s.buffer ++ frag))).dropLast
          buffer := ((sentencesOf (trim (s.buffer ++ frag))).getLast?).getD [] }
      else { s with buffer := trim (s.buffer ++ frag) }) := by
  rw [handleCommentary, if_neg (by simp [hig])]

theorem flush_eq (s : AState) :
    flushLiveTranscript s =
      (if !(trim s.buffer).isEmpty then
        (if 0 < (sentencesOf (trim s.buffer)).length then
          { topics :=
              if 0 < s.topics.length then appendToLast s.topics (sentencesOf (trim s.buffer))
              else [initialTopic (sentencesOf (trim s.buffer))]
            commentary := s.commentary ++ sentencesOf (trim s.buffer)
            buffer := [] }
        else { s with buffer := [] })
      else { s with buffer := [] }) := rfl

theorem topicsText_update (ts : List Topic) (complete : List Str) :
    topicsText
      (if 0 < ts.length then appendToLast ts complete
       else if 0 < complete.length then [initialTopic complete]
       else ts)
      = topicsText ts ++ complete.flatten := by
  by_cases h : 0 < ts.length
  · rw [if_pos h, topicsText_appendToLast ts complete
      (by intro hc; rw [hc] at h; simp at h)]
  · rw [if_neg h]
    have hts : ts = [] := by
      cases ts with
      | nil => rfl
      | cons a b => exact absurd (by simp) h
    subst hts
    by_cases hc : 0 < complete.length
    · rw [if_pos hc, topicsText_initialTopic]
      rfl
    · rw [if_neg hc]
      have hcc : complete = [] := by
        cases complete with
        | nil => rfl
        | cons a b => exact absurd (by simp) hc
      subst hcc
      rfl

theorem topicsText_flushUpdate (ts : List Topic) (ss : List Str) :
    topicsText (if 0 < ts.length then appendToLast ts ss else [initialTopic ss])
      = topicsText ts ++ ss.flatten := by
  by_cases h : 0 < ts.length
  · rw [if_pos h, topicsText_appendToLast ts ss
      (by intro hc; rw [hc] at h; simp at h)]
  · rw [if_neg h]
    have hts : ts = [] := by
      cases ts with
      | nil => rfl
      | cons a b => exact absurd (by simp) h
    subst hts
    rw [topicsText_initialTopic]
    rfl

theorem handleCommentary_conserves (s : AState) (frag : Str) :
    strip (assemblerText (handleCommentary s frag))
      = strip (assemblerText s)
        ++ strip (if streamIgnored frag = true then [] else frag) := by
  by_cases hig : streamIgnored frag = true
  · rw [if_pos hig, handleCommentary, if_pos hig]
    simp [strip]
  · have hig' : streamIgnored frag = false := by simpa using hig
    rw [if_neg hig, handleCommentary_eq_of_not_ignored s frag hig']
    by_cases hlen : 1 < (sentencesOf (trim (s.buffer ++ frag))).length
    · rw [if_pos hlen]
      unfold assemblerText
      dsimp only
      rw [topicsText_update, List.append_assoc, strip_append,
        flatten_dropLast_getLast, strip_flatten_sentencesOf, strip_trim,
        strip_append, strip_append, List.append_assoc]
    · rw [if_neg hlen]
      unfold assemblerText
      dsimp only
      rw [strip_append, strip_trim, strip_append, strip_append, List.append_assoc]

theorem flush_conserves (s : AState) :
    strip (assemblerText (flushLiveTranscript s)) = strip (assemblerText s) := by
  rw [flush_eq]
  by_cases hT : (trim s.buffer).isEmpty = true
  · rw [if_neg (by simp [hT])]
    unfold assemblerText
    dsimp only
    have hb : strip s.buffer = [] := by
      have ht : trim s.buffer = [] := List.isEmpty_iff.mp hT
      rw [← strip_trim, ht]
      rfl
    rw [strip_append, strip_append, hb]
    simp [strip]
  · rw [if_pos (by simp [hT])]
    by_cases hlen : 0 < (sentencesOf (trim s.buffer)).length
    · rw [if_pos hlen]
      unfold assemblerText
      dsimp only
      rw [topicsText_flushUpdate, List.append_nil, strip_append,
        strip_flatten_sentencesOf, strip_trim, strip_append]
    · rw [if_neg hlen]
      unfold assemblerText
      dsimp only
      have hempty : sentencesOf (trim s.buffer) = [] := by
        cases hs : sentencesOf (trim s.buffer) with
        | nil => rfl
        | cons a b => rw [hs] at hlen; simp at hlen
      have hb : strip s.buffer = [] := by
        have h2 := strip_flatten_sentencesOf (trim s.buffer)
        rw [hempty] at h2
        rw [← strip_trim, ← h2]
        rfl
      rw [strip_append, strip_append, hb]
      simp [strip]

theorem flush_buffer_nil (s : AState) : (flushLiveTranscript s).buffer = [] := by
  rw [flush_eq]
  by_cases hT : (trim s.buffer).isEmpty = true
  · rw [if_neg (by simp [hT])]
  · rw [if_pos (by simp [hT])]
    by_cases hlen : 0 < (sentencesOf (trim s.buffer)).length
    · rw [if_pos hlen]
    · rw [if_neg hlen]

theorem titlesOf_flush (s : AState) (h : s.topics ≠ []) :
    titlesOf (flushLiveTranscript s).topics = titlesOf s.topics := by
  rw [flush_eq]
  by_cases hT : (trim s.buffer).isEmpty = true
  · rw [if_neg (by simp [hT])]
  · rw [if_pos (by simp [hT])]
    by_cases hlen : 0 < (sentencesOf (trim s.buffer)).length
    · rw [if_pos hlen]
      dsimp only
      rw [if_pos (List.length_pos.mpr h), titlesOf_appendToLast]
    · rw [if_neg hlen]

theorem foldl_handleCommentary_conserves (frags : List Str) (s : AState) :
    strip (assemblerText (frags.foldl handleCommentary s))
      = strip (assemblerText s) ++ strip (acceptedText frags) := by
  induction frags generalizing s with
  | nil => simp [acceptedText, strip]
  | cons f rest ih =>
    rw [List.foldl_cons, ih, handleCommentary_conserves]
    by_cases hig : streamIgnored f = true
    · rw [if_pos hig]
      simp only [acceptedText, List.filter_cons, hig]
      simp [strip]
    · rw [if_neg hig]
      have hig' : streamIgnored f = false := by simpa using hig
      simp only [acceptedText, List.filter_cons, hig']
      simp only [Bool.not_false, if_pos, List.flatten_cons]
      rw [strip_append, List.append_assoc]

/-! ### Splitting a terminal-free string -/

theorem splitRaw_no_terminal (s acc : Str) (h : ∀ c ∈ s, isTerminal c = false) :
    splitRaw s acc = [acc.reverse ++ s] := by
  induction s generalizing acc with
  | nil => simp [splitRaw]
  | cons c rest ih =>
    rw [splitRaw, if_neg (by simp [h c (by simp)])]
    rw [ih (c :: acc) (fun x hx => h x (by simp [hx]))]
    simp

theorem splitSentences_no_terminal (s : Str) (h : ∀ c ∈ s, isTerminal c = false) :
    splitSentences s = [s] := by
  unfold splitSentences
  rw [splitRaw_no_terminal s [] h]
  simp

theorem keepNonBlank_trim (b : Str) (h : trim b ≠ []) : keepNonBlank (trim b) = true := by
  unfold keepNonBlank
  have h1 : strip b ≠ [] := fun hc => h ((trim_eq_nil_iff b).mpr hc)
  have h2 : trim (trim b) ≠ [] := by
    intro hc
    have h3 := (trim_eq_nil_iff (trim b)).mp hc
    rw [strip_trim] at h3
    exact h1 h3
  simp [List.isEmpty_iff, h2]

theorem sentencesOf_eq_single (w : Str) (hterm : ∀ c ∈ w, isTerminal c = false)
    (hnb : keepNonBlank w = true) :
    sentencesOf w = [w] := by
  unfold sentencesOf
  rw [splitSentences_no_terminal w hterm, List.filter_cons_of_pos hnb]
  rfl

/-! ### The batch-mode controller invariant -/

theorem ctrlReach_load_le (s : CtrlState) (h : CtrlReach s) : ctrlLoad s ≤ 1 := by
  induction h with
  | init => simp [ctrlInit, ctrlLoad]
  | @step s0 s1 e hr hstep ih =>
    cases e with
    | timerFire =>
      cases hrec : s0.recRecording
      · simp [ctrlStep, hrec] at hstep
        subst hstep
        exact ih
      · simp [ctrlStep, hrec] at hstep
        subst hstep
        simp [ctrlLoad, hrec] at ih ⊢
        omega
    | dataAvailable size =>
      by_cases hp : s0.pending = 0
      · simp [ctrlStep, hp] at hstep
      · by_cases hsz : 0 < size
        · simp [ctrlStep, hp, hsz] at hstep
          subst hstep
          cases hrec : s0.recRecording <;> simp [ctrlLoad, hrec] at ih ⊢ <;> omega
        · simp [ctrlStep, hp, hsz] at hstep
          subst hstep
          cases hrec : s0.recRecording <;> cases hint : s0.intervalActive <;>
            simp [ctrlLoad, hrec, hint] at ih ⊢ <;> omega
    | fetchComplete =>
      by_cases hf : s0.inflight = 0
      · simp [ctrlStep, hf] at hstep
      · simp [ctrlStep, hf] at hstep
        subst hstep
        cases hrec : s0.recRecording <;> cases hint : s0.intervalActive <;>
          simp [ctrlLoad, hrec, hint] at ih ⊢ <;> omega
    | stopEvent =>
      simp [ctrlStep] at hstep
      subst hstep
      cases hrec : s0.recRecording <;> simp [ctrlLoad, hrec] at ih ⊢ <;> omega

/-! ## Claim theorems -/

/-- C1: for every sequence of fragments fed to the streaming assembler
(`handleCommentary` on each fragment, plus a final `flushLiveTranscript`),
the concatenation of the text held in the topics plus the live-transcript
buffer equals, modulo whitespace normalization at split boundaries (`strip`),
the concatenation of all non-silence, non-empty input fragments in arrival
order — no fragment text is duplicated and none is discarded except by the
silence/empty rule.  The equality holds both before and after the final
flush. -/
theorem claim_C1_assembler_conservation (frags : List Str) :
    strip (assemblerText (runFrags frags)) = strip (acceptedText frags)
  ∧ strip (assemblerText (flushLiveTranscript (runFrags frags)))
      = strip (acceptedText frags) := by
  have h1 : strip (assemblerText (runFrags frags)) = strip (acceptedText frags) := by
    have h := foldl_handleCommentary_conserves frags initState
    rw [show strip (assemblerText initState) = [] from rfl, List.nil_append] at h
    rw [runFrags]
    exact h
  exact ⟨h1, by rw [flush_conserves, h1]⟩

/-- C9: flushing the assembler with an empty buffer is a no-op (topics,
commentary and buffer unchanged), and flush is idempotent: flushing twice
gives the same state as flushing once. -/
theorem claim_C9_flush_noop_idempotent (s : AState) :
    (s.buffer = [] → flushLiveTranscript s = s)
  ∧ flushLiveTranscript (flushLiveTranscript s) = flushLiveTranscript s := by
  have hnoop : ∀ (u : AState), u.buffer = [] → flushLiveTranscript u = u := by
    intro u hu
    cases u with
    | mk tp cm bf =>
      have hb : bf = [] := hu
      subst hb
      rfl
  exact ⟨hnoop s, hnoop (flushLiveTranscript s) (flush_buffer_nil s)⟩

/-- C9 witness: flushing the fresh (empty-buffer) state is a no-op. -/
theorem claim_C9_witness : flushLiveTranscript initState = initState :=
  (claim_C9_flush_noop_idempotent initState).1 rfl

/-- C2 counterexample: feeding `"Hello "`, `"world. "` from the fresh state
does not, as the claim states, produce a topic "General Discussion" with an
empty buffer after fragment 2 — no topic exists at all and the buffer is
non-empty (it holds `"Helloworld."`). -/
theorem claim_C2_counterexample :
    ¬ ((runFrags [str "Hello ", str "world. "]).buffer = []
       ∧ ∃ t ∈ (runFrags [str "Hello ", str "world. "]).topics,
           t.title = str "General Discussion") := by decide

/-- C2 amended: fragment concatenation inserts no separator and a fully
terminated buffer still splits into a single segment, so after fragment 2 no
topic exists and the buffer holds `"Helloworld."`; the first sentence enters
the default topic only when fragment 3 arrives; after fragment 4 the
commentaries are `["Helloworld."]` with `"Next sentence."` still buffered. -/
theorem claim_C2_amended_trace :
    runFrags [str "Hello ", str "world. "]
      = { topics := [], commentary := [], buffer := str "Helloworld." }
  ∧ runFrags [str "Hello ", str "world. ", str "Next"]
      = { topics := [initialTopic [str "Helloworld."]],
          commentary := [str "Helloworld."], buffer := str "Next" }
  ∧ runFrags [str "Hello ", str "world. ", str "Next", str " sentence."]
      = { topics := [initialTopic [str "Helloworld."]],
          commentary := [str "Helloworld."], buffer := str "Next sentence." } := by
  decide

/-- C8 counterexample: in request/response mode the silence comparison is the
exact literal `"Silence."`, so the lower-case fragment `"silence."` is not
ignored — it is appended to the commentary list, a state change. -/
theorem claim_C8_counterexample :
    applyBatchResult { commentary := [], topics := [] } true (str "silence.") []
        (str "1")
      ≠ { commentary := [], topics := [] } := by decide

/-- C8 amended: the case-insensitive trimmed silence rule holds in streaming
mode only — `handleCommentary` ignores, with no state change, every fragment
that is empty or whose lower-cased trim equals `"silence."`; request/response
mode ignores only an empty commentary or the exact literal `"Silence."`. -/
theorem claim_C8_amended_silence_rules (s : AState) (frag : Str) (b : BState)
    (newId : Str) (hig : streamIgnored frag = true) :
    handleCommentary s frag = s
  ∧ applyBatchResult b true [] [] newId = b
  ∧ applyBatchResult b true silenceLiteral [] newId = b := by
  refine ⟨?_, ?_, ?_⟩
  · rw [handleCommentary, if_pos hig]
  · rfl
  · rfl

/-- C8 witness: the padded mixed-case fragment `" SiLeNcE. "` is ignored by
the streaming assembler. -/
theorem claim_C8_witness : handleCommentary initState (str " SiLeNcE. ") = initState :=
  (claim_C8_amended_silence_rules initState (str " SiLeNcE. ")
    { commentary := [], topics := [] } (str "1") (by decide)).1

/-- C4 counterexample: a streaming server message arriving after stop (the
capturing flag is `false`) is not discarded — it mutates the session state. -/
theorem claim_C4_counterexample :
    applyServerMessage false (str "id") initState [MsgPart.text (str "Hi there.")]
      ≠ initState := by decide

/-- C4 amended: no "still capturing" check exists on the result path.  The
streaming message handler and the batch fetch continuation apply an async
result identically whatever the value of the capturing flag at arrival time,
so a post-stop arrival mutates the session state exactly as one arriving
during capture (the flag gates only outbound audio sending and the
close-event path). -/
theorem claim_C4_amended_flag_unchecked :
    (∀ (capturing : Bool) (newId : Str) (s : AState) (parts : List MsgPart),
        applyServerMessage capturing newId s parts
          = applyServerMessage true newId s parts)
  ∧ (∀ (capturing : Bool) (b : BState) (success : Bool) (c nt newId : Str),
        applyFetchResult capturing b success c nt newId
          = applyFetchResult true b success c nt newId) :=
  ⟨fun _ _ _ _ => rfl, fun _ _ _ _ _ _ => rfl⟩

/-- C3: when a non-ignored fragment is appended to the buffer and the split
of the updated buffer yields more than one non-blank segment, all segments
except the last are appended in order to the commentaries of the open (last)
topic — the default topic being created first when no topic exists —
and the last segment becomes the new buffer; when the split yields exactly
one segment nothing is appended and the whole (trimmed) updated buffer
remains pending. -/
theorem claim_C3_fragment_split_rule (s : AState) (frag : Str)
    (hig : streamIgnored frag = false) :
    (1 < (sentencesOf (trim (s.buffer ++ frag))).length →
        (handleCommentary s frag).buffer
          = ((sentencesOf (trim (s.buffer ++ frag))).getLast?).getD []
      ∧ (handleCommentary s frag).commentary
          = s.commentary ++ (sentencesOf (trim (s.buffer ++ frag))).dropLast
      ∧ (s.topics = [] →
          (handleCommentary s frag).topics
            = [initialTopic ((sentencesOf (trim (s.buffer ++ frag))).dropLast)])
      ∧ (s.topics ≠ [] →
          (handleCommentary s frag).topics.dropLast = s.topics.dropLast
        ∧ (handleCommentary s frag).topics.getLast?
            = (s.topics.getLast?).map (fun t =>
                { t with commentaries :=
                    t.commentaries
                      ++ (sentencesOf (trim (s.buffer ++ frag))).dropLast })))
  ∧ ((sentencesOf (trim (s.buffer ++ frag))).length = 1 →
        handleCommentary s frag = { s with buffer := trim (s.buffer ++ frag) }) := by
  rw [handleCommentary_eq_of_not_ignored s frag hig]
  constructor
  · intro hlen
    rw [if_pos hlen]
    refine ⟨rfl, rfl, ?_, ?_⟩
    · intro htop
      have h0 : ¬ 0 < s.topics.length := by simp [htop]
      have hdl : 0 < (sentencesOf (trim (s.buffer ++ frag))).dropLast.length := by
        rw [List.length_dropLast]
        omega
      dsimp only
      rw [if_neg h0, if_pos hdl]
    · intro htop
      have h0 : 0 < s.topics.length := List.length_pos.mpr htop
      dsimp only
      rw [if_pos h0]
      exact ⟨dropLast_appendToLast _ _, getLast?_appendToLast _ _⟩
  · intro hlen
    rw [if_neg (by omega)]

/-- C3 witness: with buffer `"Hello"` and fragment `" there. Bye"` the split
yields two non-blank segments, so `"Bye"` becomes the new buffer. -/
theorem claim_C3_witness :
    (handleCommentary { topics := [], commentary := [], buffer := str "Hello" }
        (str " there. Bye")).buffer = str "Bye" := by
  have h := claim_C3_fragment_split_rule
    { topics := [], commentary := [], buffer := str "Hello" } (str " there. Bye")
    (by decide)
  have h2 := (h.1 (by decide)).1
  rw [h2]
  decide

/-- C6: stopping with pending unterminated text flushes it into the open
commentaries of the open topic as a final entry rather than discarding it: when a topic
exists and the trimmed buffer is non-empty with no sentence-terminal
character, the flush run by `stopCapture` appends exactly that trimmed text
to the commentaries of the last topic and clears the buffer. -/
theorem claim_C6_stop_flush_pending (s : AState)
    (h1 : s.topics ≠ []) (h2 : trim s.buffer ≠ [])
    (h3 : ∀ c ∈ trim s.buffer, isTerminal c = false) :
    (flushLiveTranscript s).buffer = []
  ∧ (flushLiveTranscript s).topics.dropLast = s.topics.dropLast
  ∧ (flushLiveTranscript s).topics.getLast?
      = (s.topics.getLast?).map (fun t =>
          { t with commentaries := t.commentaries ++ [trim s.buffer] }) := by
  have hsent : sentencesOf (trim s.buffer) = [trim s.buffer] :=
    sentencesOf_eq_single (trim s.buffer) h3 (keepNonBlank_trim s.buffer h2)
  have hcond1 : (!(trim s.buffer).isEmpty) = true := by
    simp [List.isEmpty_iff, h2]
  have hcond2 : 0 < (sentencesOf (trim s.buffer)).length := by
    rw [hsent]
    simp
  have hflush : flushLiveTranscript s
      = { topics := appendToLast s.topics [trim s.buffer]
          commentary := s.commentary ++ [trim s.buffer]
          buffer := [] } := by
    rw [flush_eq, if_pos hcond1, if_pos hcond2, hsent,
      if_pos (List.length_pos.mpr h1)]
  refine ⟨flush_buffer_nil s, ?_, ?_⟩
  · rw [hflush]
    exact dropLast_appendToLast _ _
  · rw [hflush]
    exact getLast?_appendToLast _ _

/-- C6 witness: flushing with buffer `"Partial thought"` appends it to the
commentaries of the open topic. -/
theorem claim_C6_witness :
    (flushLiveTranscript
        { topics := [⟨str "t1", str "Opening", [str "Hi."]⟩],
          commentary := [str "Hi."],
          buffer := str "Partial thought" }).topics.getLast?
      = some ⟨str "t1", str "Opening", [str "Hi.", str "Partial thought"]⟩ := by
  have h := claim_C6_stop_flush_pending
    { topics := [⟨str "t1", str "Opening", [str "Hi."]⟩],
      commentary := [str "Hi."], buffer := str "Partial thought" }
    (by decide) (by decide) (by decide)
  rw [h.2.2]
  decide

/-- C7 counterexample: in request/response mode a new-topic signal carrying
an already-used title creates a second topic with that title — the duplicate
check exists only in streaming mode, so the claim fails for request/response
mode. -/
theorem claim_C7_counterexample :
    titlesOf (applyBatchResult
        { commentary := [], topics := [⟨str "1", str "Budget", []⟩] }
        true [] (str "Budget") (str "2")).topics
      = [str "Budget", str "Budget"] := by decide

/-- C7 amended: in streaming mode a new-topic signal whose title equals an
title of an existing topic performs only the flush and creates no topic, so
streaming-mode titles stay unique; in request/response mode there is no
duplicate check and a truthy `newTopic` always appends a fresh topic with the
signalled title. -/
theorem claim_C7_amended_dedup (s : AState) (newId topic : Str)
    (hdup : ∃ t ∈ s.topics, t.title = topic) :
    handleNewTopic s newId topic = flushLiveTranscript s
  ∧ ∀ (b : BState) (c newId2 : Str), topic ≠ [] →
      (applyBatchResult b true c topic newId2).topics.getLast?
        = some { id := newId2, title := topic, commentaries := [] } := by
  constructor
  · have htop : s.topics ≠ [] := by
      rcases hdup with ⟨t, ht, _⟩
      intro hc
      rw [hc] at ht
      exact absurd ht (List.not_mem_nil t)
    have hany : (flushLiveTranscript s).topics.any (fun t => t.title == topic) = true := by
      rcases hdup with ⟨t, ht, htitle⟩
      have hmem : topic ∈ titlesOf (flushLiveTranscript s).topics := by
        rw [titlesOf_flush s htop, titlesOf]
        exact List.mem_map.mpr ⟨t, ht, htitle⟩
      rw [titlesOf] at hmem
      rcases List.mem_map.mp hmem with ⟨t2, ht2, htitle2⟩
      exact List.any_eq_true.mpr ⟨t2, ht2, by simp_all⟩
    rw [handleNewTopic]
    rw [if_pos hany]
  · intro b c newId2 htop
    have hcond : (!topic.isEmpty) = true := by
      simp [List.isEmpty_iff, htop]
    rw [applyBatchResult, if_pos rfl]
    dsimp only
    rw [if_pos hcond]
    exact List.getLast?_concat _

/-- C7 witness: in streaming mode a duplicate "Budget" signal only flushes. -/
theorem claim_C7_witness :
    handleNewTopic
        { topics := [⟨str "1", str "Budget", []⟩],
          commentary := [],
          buffer := [] } (str "9") (str "Budget")
      = flushLiveTranscript
          { topics := [⟨str "1", str "Budget", []⟩],
            commentary := [],
            buffer := [] } :=
  (claim_C7_amended_dedup
    { topics := [⟨str "1", str "Budget", []⟩], commentary := [], buffer := [] }
    (str "9") (str "Budget")
    ⟨⟨str "1", str "Budget", []⟩, by decide, rfl⟩).1

/-- C5: in request/response mode at most one transcription call is ever in
flight; while one is in flight the recorder is inactive and no chunk is
pending, so a timer fire leaves the state unchanged (the recording cycle is
skipped, not queued) and no chunk delivery — hence no second send — is
possible before the call completes. -/
theorem claim_C5_single_call_in_flight (s : CtrlState) (h : CtrlReach s) :
    s.inflight ≤ 1
  ∧ (1 ≤ s.inflight →
        s.recRecording = false
      ∧ s.pending = 0
      ∧ ctrlStep s CtrlEvent.timerFire = some s
      ∧ ∀ size, ctrlStep s (CtrlEvent.dataAvailable size) = none) := by
  have hload := ctrlReach_load_le s h
  constructor
  · simp only [ctrlLoad] at hload
    omega
  · intro hfl
    have hrec : s.recRecording = false := by
      cases hb : s.recRecording
      · rfl
      · simp [ctrlLoad, hb] at hload
        omega
    have hpend : s.pending = 0 := by
      simp [ctrlLoad, hrec] at hload
      omega
    refine ⟨hrec, hpend, ?_, ?_⟩
    · simp [ctrlStep, hrec]
    · intro size
      simp [ctrlStep, hpend]

/-- C5 witness: the state reached by one timer fire and one non-empty chunk
delivery has one call in flight; there the timer is a no-op and no further
chunk can be delivered. -/
theorem claim_C5_witness :
    ({ recRecording := false, inflight := 1, pending := 0, intervalActive := true } :
        CtrlState).inflight ≤ 1
  ∧ ctrlStep { recRecording := false, inflight := 1, pending := 0, intervalActive := true }
        CtrlEvent.timerFire
      = some { recRecording := false, inflight := 1, pending := 0, intervalActive := true }
  ∧ ctrlStep { recRecording := false, inflight := 1, pending := 0, intervalActive := true }
        (CtrlEvent.dataAvailable 7)
      = none := by
  have h1 : ctrlStep ctrlInit CtrlEvent.timerFire
      = some { recRecording := false, inflight := 0, pending := 1,
               intervalActive := true } := by decide
  have h2 : ctrlStep
      { recRecording := false, inflight := 0, pending := 1, intervalActive := true }
      (CtrlEvent.dataAvailable 7)
      = some { recRecording := false, inflight := 1, pending := 0,
               intervalActive := true } := by decide
  have hreach := CtrlReach.step (CtrlReach.step CtrlReach.init h1) h2
  have h := claim_C5_single_call_in_flight _ hreach
  exact ⟨h.1, (h.2 (by decide)).2.2.1, (h.2 (by decide)).2.2.2 7⟩

/-- C10: when the recorder was started with an externally supplied stream,
`stop` clears the own fields of the recorder and stops no media track of that
stream; only an internally acquired (`getUserMedia`) stream has its tracks
stopped by `stop`; the externally owned captured stream is released
separately by `stopCapture` of the controller. -/
theorem claim_C10_external_stream_ownership (r : AudioRecorder)
    (ext internalId : Nat) (h : r.recording = false) :
    ((r.start (some ext) internalId).stop).2 = []
  ∧ ((r.start (some ext) internalId).stop).1.stream = none
  ∧ ((r.start (some ext) internalId).stop).1.recording = false
  ∧ ((r.start (some ext) internalId).stop).1.sourceConnected = false
  ∧ ((r.start (some ext) internalId).stop).1.recordingWorklet = false
  ∧ ((r.start (some ext) internalId).stop).1.vuWorklet = false
  ∧ ((r.start none internalId).stop).2 = [internalId]
  ∧ stopCaptureTrackReleases (some ext) = [ext] := by
  have hneg : ¬ r.recording = true := by simp [h]
  have hstart : r.start (some ext) internalId
      = { stream := some ext, streamCreatedInternally := false, recording := true,
          sourceConnected := true, recordingWorklet := true, vuWorklet := true } := by
    rw [AudioRecorder.start, if_neg hneg]
    rfl
  have hstart2 : r.start none internalId
      = { stream := some internalId, streamCreatedInternally := true,
          recording := true, sourceConnected := true, recordingWorklet := true,
          vuWorklet := true } := by
    rw [AudioRecorder.start, if_neg hneg]
    rfl
  rw [hstart, hstart2]
  exact ⟨rfl, rfl, rfl, rfl, rfl, rfl, rfl, rfl⟩

/-- C10 witness: a fresh recorder started on external stream 3 stops no
track; started internally on stream 5 it stops exactly track 5; the
stop of the controller itself releases the external stream 3. -/
theorem claim_C10_witness :
    ((AudioRecorder.mkNew.start (some 3) 5).stop).2 = []
  ∧ ((AudioRecorder.mkNew.start none 5).stop).2 = [5]
  ∧ stopCaptureTrackReleases (some 3) = [3] := by
  have h := claim_C10_external_stream_ownership AudioRecorder.mkNew 3 5 rfl
  exact ⟨h.1, h.2.2.2.2.2.2.1, h.2.2.2.2.2.2.2⟩

end Aaron
